import Mathlib

/-!
Verification of the citation-resolution / response-normalization pipeline and the
operation-polling loop of the `rag-bot` repository (`src/rag_maker/service.py`,
`src/rag_maker/file_search.py`), against its natural-language specification.

The Python code is shallowly embedded: backend values ("RawValue" in the spec)
are modelled by the inductive type `PyVal`, which covers the shapes the code
discriminates on (`None`, booleans, integers, strings, lists, `dict`s, and
attribute-bearing objects).  A `dict` is an association list looked up at the
first matching key; an attribute object carries its attribute table together
with its `str()` form.  Python truthiness, `or`, `getattr`, `dict.get`, `len`
and `str` are given as explicit total functions; places where the Python code
can raise (attribute access, `len` of a non-sized value, `str.split` on a
non-string, `pathlib.Path` of a non-string) are modelled with `Except`.
Built-in attributes of primitive values (such as `str.title`) and the exact
`repr` text of containers are not modelled; no claim depends on them.
-/

namespace RagBot

/-- A Python run-time value as discriminated by the embedded code: `None`,
booleans, integers, strings, lists, dicts (association lists, first match
wins), and attribute-bearing objects with an attribute table and a `str()`
form. -/
inductive PyVal where
  | none : PyVal
  | bool (b : Bool) : PyVal
  | int (n : Int) : PyVal
  | str (s : String) : PyVal
  | list (elems : List PyVal) : PyVal
  | dict (entries : List (String × PyVal)) : PyVal
  | obj (attrs : List (String × PyVal)) (strForm : String) : PyVal

mutual

/-- Structural equality on `PyVal`, mirroring Python `==` on the embedded
fragment (dicts are compared as ordered association lists). -/
def pyBeq : PyVal → PyVal → Bool
  | .none, .none => true
  | .bool a, .bool b => a == b
  | .int a, .int b => a == b
  | .str a, .str b => a == b
  | .list xs, .list ys => pyBeqList xs ys
  | .dict es, .dict fs => pyBeqEntries es fs
  | .obj es s, .obj fs t => pyBeqEntries es fs && s == t
  | _, _ => false

/-- Elementwise `pyBeq` on lists of values. -/
def pyBeqList : List PyVal → List PyVal → Bool
  | [], [] => true
  | x :: xs, y :: ys => pyBeq x y && pyBeqList xs ys
  | _, _ => false

/-- Elementwise `pyBeq` on attribute/entry tables. -/
def pyBeqEntries : List (String × PyVal) → List (String × PyVal) → Bool
  | [], [] => true
  | (k, v) :: es, (k', v') :: fs => k == k' && pyBeq v v' && pyBeqEntries es fs
  | _, _ => false

end

mutual

theorem pyBeq_refl : ∀ a, pyBeq a a = true
  | .none => rfl
  | .bool a => by simp [pyBeq]
  | .int a => by simp [pyBeq]
  | .str a => by simp [pyBeq]
  | .list xs => pyBeqList_refl xs
  | .dict es => pyBeqEntries_refl es
  | .obj es s => by simp [pyBeq, pyBeqEntries_refl es]

theorem pyBeqList_refl : ∀ xs, pyBeqList xs xs = true
  | [] => rfl
  | x :: xs => by simp [pyBeqList, pyBeq_refl x, pyBeqList_refl xs]

theorem pyBeqEntries_refl : ∀ es, pyBeqEntries es es = true
  | [] => rfl
  | (k, v) :: es => by simp [pyBeqEntries, pyBeq_refl v, pyBeqEntries_refl es]

end

mutual

theorem pyBeq_sound : ∀ a b, pyBeq a b = true → a = b
  | .none, .none, _ => rfl
  | .bool a, .bool b, h => by rw [show a = b from by simpa [pyBeq] using h]
  | .int a, .int b, h => by rw [show a = b from by simpa [pyBeq] using h]
  | .str a, .str b, h => by rw [show a = b from by simpa [pyBeq] using h]
  | .list xs, .list ys, h => by rw [pyBeqList_sound xs ys (by simpa [pyBeq] using h)]
  | .dict es, .dict fs, h => by rw [pyBeqEntries_sound es fs (by simpa [pyBeq] using h)]
  | .obj es s, .obj fs t, h => by
      have h' : pyBeqEntries es fs = true ∧ s = t := by simpa [pyBeq] using h
      rw [pyBeqEntries_sound es fs h'.1, h'.2]
  | .none, .bool _, h => Bool.noConfusion h
  | .none, .int _, h => Bool.noConfusion h
  | .none, .str _, h => Bool.noConfusion h
  | .none, .list _, h => Bool.noConfusion h
  | .none, .dict _, h => Bool.noConfusion h
  | .none, .obj _ _, h => Bool.noConfusion h
  | .bool _, .none, h => Bool.noConfusion h
  | .bool _, .int _, h => Bool.noConfusion h
  | .bool _, .str _, h => Bool.noConfusion h
  | .bool _, .list _, h => Bool.noConfusion h
  | .bool _, .dict _, h => Bool.noConfusion h
  | .bool _, .obj _ _, h => Bool.noConfusion h
  | .int _, .none, h => Bool.noConfusion h
  | .int _, .bool _, h => Bool.noConfusion h
  | .int _, .str _, h => Bool.noConfusion h
  | .int _, .list _, h => Bool.noConfusion h
  | .int _, .dict _, h => Bool.noConfusion h
  | .int _, .obj _ _, h => Bool.noConfusion h
  | .str _, .none, h => Bool.noConfusion h
  | .str _, .bool _, h => Bool.noConfusion h
  | .str _, .int _, h => Bool.noConfusion h
  | .str _, .list _, h => Bool.noConfusion h
  | .str _, .dict _, h => Bool.noConfusion h
  | .str _, .obj _ _, h => Bool.noConfusion h
  | .list _, .none, h => Bool.noConfusion h
  | .list _, .bool _, h => Bool.noConfusion h
  | .list _, .int _, h => Bool.noConfusion h
  | .list _, .str _, h => Bool.noConfusion h
  | .list _, .dict _, h => Bool.noConfusion h
  | .list _, .obj _ _, h => Bool.noConfusion h
  | .dict _, .none, h => Bool.noConfusion h
  | .dict _, .bool _, h => Bool.noConfusion h
  | .dict _, .int _, h => Bool.noConfusion h
  | .dict _, .str _, h => Bool.noConfusion h
  | .dict _, .list _, h => Bool.noConfusion h
  | .dict _, .obj _ _, h => Bool.noConfusion h
  | .obj _ _, .none, h => Bool.noConfusion h
  | .obj _ _, .bool _, h => Bool.noConfusion h
  | .obj _ _, .int _, h => Bool.noConfusion h
  | .obj _ _, .str _, h => Bool.noConfusion h
  | .obj _ _, .list _, h => Bool.noConfusion h
  | .obj _ _, .dict _, h => Bool.noConfusion h

theorem pyBeqList_sound : ∀ xs ys, pyBeqList xs ys = true → xs = ys
  | [], [], _ => rfl
  | [], _ :: _, h => Bool.noConfusion h
  | _ :: _, [], h => Bool.noConfusion h
  | x :: xs, y :: ys, h => by
      have h' : pyBeq x y = true ∧ pyBeqList xs ys = true := by simpa [pyBeqList] using h
      rw [pyBeq_sound x y h'.1, pyBeqList_sound xs ys h'.2]

theorem pyBeqEntries_sound : ∀ es fs, pyBeqEntries es fs = true → es = fs
  | [], [], _ => rfl
  | [], _ :: _, h => Bool.noConfusion h
  | _ :: _, [], h => Bool.noConfusion h
  | (k, v) :: es, (k', v') :: fs, h => by
      have h' : k = k' ∧ pyBeq v v' = true ∧ pyBeqEntries es fs = true := by
        simpa [pyBeqEntries, Bool.and_assoc] using h
      rw [h'.1, pyBeq_sound v v' h'.2.1, pyBeqEntries_sound es fs h'.2.2]

end

instance pyValDecEq : DecidableEq PyVal := fun a b =>
  decidable_of_iff (pyBeq a b = true) ⟨pyBeq_sound a b, fun h => h ▸ pyBeq_refl a⟩

/-- Python truthiness (`bool(v)`) on the embedded values. -/
def truthy : PyVal → Bool
  | .none => false
  | .bool b => b
  | .int n => n != 0
  | .str s => !s.isEmpty
  | .list es => !es.isEmpty
  | .dict es => !es.isEmpty
  | .obj _ _ => true

/-- Python `a or b` (short-circuiting on truthiness, returning an operand). -/
def pyOr (a b : PyVal) : PyVal := if truthy a then a else b

/-- Python `str(v)`.  For strings it is the string itself, for objects the
carried `str()` form; the exact repr text of containers is abstracted by a
fixed non-empty placeholder (Python container reprs are never empty). -/
def pyStr : PyVal → String
  | .none => "None"
  | .bool b => cond b "True" "False"
  | .int n => toString n
  | .str s => s
  | .list _ => "[listrepr]"
  | .dict _ => "[dictrepr]"
  | .obj _ s => s

/-- Attribute table lookup: only `obj` values expose attributes (built-in
methods of primitive values are not modelled). -/
def pyAttrLookup : PyVal → String → Option PyVal
  | .obj attrs _, k => (attrs.find? (fun e => e.1 == k)).map (·.2)
  | _, _ => Option.none

/-- Python `getattr(v, k, dflt)`. -/
def pyGetattr (v : PyVal) (k : String) (dflt : PyVal) : PyVal :=
  (pyAttrLookup v k).getD dflt

/-- Python `getattr(v, k, None)`. -/
def pyGetattrN (v : PyVal) (k : String) : PyVal := pyGetattr v k .none

/-- Association-list (dict) lookup at the first matching key. -/
def dictLookup (es : List (String × PyVal)) (k : String) : Option PyVal :=
  (es.find? (fun e => e.1 == k)).map (·.2)

/-- Python `d.get(k)` (default `None`). -/
def dget (es : List (String × PyVal)) (k : String) : PyVal :=
  (dictLookup es k).getD .none

/-- Errors surfaced by the embedded code: the `NoContent` condition
(`HTTPException(502, "No content in response.")`) and ordinary Python
exceptions carrying a message. -/
inductive PyErr where
  | noContent : PyErr
  | exc (msg : String) : PyErr
deriving DecidableEq

/-- Python `len(v)`; raises `TypeError` on values with no length. -/
def pyLen : PyVal → Except PyErr Nat
  | .str s => .ok s.length
  | .list es => .ok es.length
  | .dict es => .ok es.length
  | _ => .error (.exc "TypeError: object has no len")

instance {ε α : Type} [DecidableEq ε] [DecidableEq α] : DecidableEq (Except ε α) := fun a b =>
  match a, b with
  | .ok x, .ok y => if h : x = y then .isTrue (by rw [h]) else .isFalse (fun hh => h (by injection hh))
  | .error x, .error y =>
    if h : x = y then .isTrue (by rw [h]) else .isFalse (fun hh => h (by injection hh))
  | .ok _, .error _ => .isFalse (fun h => Except.noConfusion h)
  | .error _, .ok _ => .isFalse (fun h => Except.noConfusion h)

/-- Embedding of `_coalesce(obj, *keys)` (service.py lines 68-77): try the
candidate keys in order; on a dict check key membership and non-nullity, on
anything else check attribute presence and non-nullity; return the first hit,
else `None`. -/
def coalesce (v : PyVal) : List String → PyVal
  | [] => .none
  | k :: ks =>
    match v with
    | .dict es =>
      match dictLookup es k with
      | some x => if x = PyVal.none then coalesce v ks else x
      | Option.none => coalesce v ks
    | _ =>
      match pyAttrLookup v k with
      | some x => if x = PyVal.none then coalesce v ks else x
      | Option.none => coalesce v ks

/-- Written from the spec's words (Field Resolver contract, spec section 4.1):
the value a single candidate key yields, namely the stored value if it is
present and non-null — membership-based for a mapping, attribute-based
otherwise — and nothing if absent or null. -/
def resolveKeySpec (v : PyVal) (k : String) : Option PyVal :=
  match v with
  | .dict es =>
    match dictLookup es k with
    | some x => if x = PyVal.none then Option.none else some x
    | Option.none => Option.none
  | _ =>
    match pyAttrLookup v k with
    | some x => if x = PyVal.none then Option.none else some x
    | Option.none => Option.none

/-- Embedding of `pathlib.Path(v).name` as used on `document_name`
(service.py line 101): the last kept component of the `/`-split path (empty
components and `.` are dropped by path normalization).  `Path` raises
`TypeError` when its argument is not a string. -/
def pyPathName : PyVal → Except PyErr String
  | .str s => .ok ((((s.splitOn "/").filter (fun c => (c != "") && (c != "."))).getLast?).getD "")
  | _ => .error (.exc "TypeError: argument should be a str or os.PathLike")

/-- The canonical record built by `_serialize_operation` (spec's
OperationRecord / upload-result JSON object). -/
structure OperationRecord where
  operation : PyVal
  document_name : PyVal
  display_name : PyVal
  store : PyVal
  done : Bool
  error : PyVal
deriving DecidableEq

/-- The `document_name` resolved by `_serialize_operation` (service.py
lines 81-82): the name field of the operation's `response`/`result`. -/
def docNameOf (operation : PyVal) : PyVal :=
  coalesce (coalesce operation ["response", "result"]) ["document_name", "documentName", "name"]

/-- Embedding of `_serialize_operation(operation, fallback_name)` (service.py
lines 80-106).  The only step that can raise is `Path(document_name).name`,
reached when the resolved display name is falsy and `document_name` is truthy;
everything else degrades to `None`/`False`. -/
def serializeOperation (operation : PyVal) (fallback_name : PyVal) :
    Except PyErr OperationRecord :=
  let response := coalesce operation ["response", "result"]
  let document_name := coalesce response ["document_name", "documentName", "name"]
  let parent := coalesce response ["parent", "file_search_store_name", "fileSearchStoreName"]
  let display_name := pyOr (coalesce response ["display_name", "displayName"]) fallback_name
  let done := truthy (pyOr (coalesce operation ["done"])
      (match operation with | .dict es => dget es "done" | _ => .bool false))
  let error_obj := coalesce operation ["error"]
  let error_msg :=
    if truthy error_obj then
      match error_obj with
      | .dict es => pyOr (dget es "message") (.str (pyStr error_obj))
      | _ => PyVal.str (pyStr error_obj)
    else PyVal.none
  match (if truthy display_name then .ok display_name
         else if truthy document_name then
           match pyPathName document_name with
           | .error e => .error e
           | .ok nm => .ok (pyOr (.str nm) fallback_name)
         else .ok (pyOr PyVal.none fallback_name) : Except PyErr PyVal) with
  | .error e => .error e
  | .ok display_final =>
    .ok { operation := coalesce operation ["name"], document_name := document_name,
          display_name := display_final, store := parent, done := done, error := error_msg }

/-- Fixed polling interval (file_search.py line 14: `POLL_SECONDS = 5`). -/
def POLL_SECONDS : Nat := 5

/-- The loop guard of `wait_until_ready` (file_search.py lines 136-137):
`done = getattr(current, "done", None)`, then
`done or (isinstance(current, dict) and current.get("done"))`. -/
def pollDone (current : PyVal) : Bool :=
  truthy (pyGetattrN current "done") ||
    (match current with | .dict es => truthy (dget es "done") | _ => false)

/-- The sequence of operation statuses the poller observes: observation 0 is
the operation passed in, observation `n+1` is the result of the `n`-th
re-fetch from the backend (`operations.get`). -/
def obsAt (op : PyVal) (f : Nat → PyVal) : Nat → PyVal
  | 0 => op
  | n + 1 => f n

/-- Embedding of the `while True` polling loop of `wait_until_ready`
(file_search.py lines 134-143) over a stream `f` of re-fetch results, with
explicit fuel (the source loop is unbounded; `Option.none` means the fuel ran
out with `done` never observed).  `k` counts completed wait-then-fetch cycles
and `w` accumulates the total time slept; on the first `done`-truthy
observation the loop stops and returns `(current, k, w)`. -/
def pollLoop (f : Nat → PyVal) : Nat → PyVal → Nat → Nat → Option (PyVal × Nat × Nat)
  | fuel, current, k, w =>
    if pollDone current then some (current, k, w)
    else
      match fuel with
      | 0 => Option.none
      | fuel + 1 => pollLoop f fuel (f k) (k + 1) (w + POLL_SECONDS)

/-- The error check `wait_until_ready` performs after the loop (file_search.py
lines 145-151): for a dict operation any truthy `error` value is raised; for an
attribute-style operation the error is raised only when it is truthy and its
`code` attribute (default `0`) is truthy. -/
def finishPoll (current : PyVal) : Except PyErr PyVal :=
  match current with
  | .dict es =>
    if truthy (dget es "error") then .error (.exc (pyStr (dget es "error"))) else .ok current
  | _ =>
    let err := pyGetattrN current "error"
    if truthy err && truthy (pyGetattr err "code" (.int 0)) then .error (.exc (pyStr err))
    else .ok current

/-- The source's raise condition, as a predicate on the final observation:
for a dict a non-empty/truthy `error` entry, otherwise a truthy `error`
attribute whose `code` (default 0) is non-zero/truthy. -/
def errNontrivial (current : PyVal) : Bool :=
  match current with
  | .dict es => truthy (dget es "error")
  | _ => truthy (pyGetattrN current "error") &&
      truthy (pyGetattr (pyGetattrN current "error") "code" (.int 0))

/-- Embedding of `wait_until_ready` (file_search.py lines 133-153): run the
polling loop, then apply the error check to the final raw operation value. -/
def waitUntilReady (f : Nat → PyVal) (fuel : Nat) (op : PyVal) :
    Option (Except PyErr PyVal × Nat × Nat) :=
  (pollLoop f fuel op 0 0).map (fun r => (finishPoll r.1, r.2.1, r.2.2))

theorem pollLoop_sound (f : Nat → PyVal) (op : PyVal) :
    ∀ (fuel k w : Nat) (v : PyVal) (kf wf : Nat),
      (∀ j, j < k → pollDone (obsAt op f j) = false) →
      pollLoop f fuel (obsAt op f k) k w = some (v, kf, wf) →
      v = obsAt op f kf ∧ pollDone v = true ∧
        (∀ j, j < kf → pollDone (obsAt op f j) = false) ∧
        wf = w + POLL_SECONDS * (kf - k) ∧ k ≤ kf := by
  intro fuel
  induction fuel with
  | zero =>
    intro k w v kf wf hprev hrun
    rw [pollLoop] at hrun
    by_cases hd : pollDone (obsAt op f k) = true
    · rw [if_pos hd] at hrun
      obtain ⟨h1, h2, h3⟩ : obsAt op f k = v ∧ k = kf ∧ w = wf := by
        simpa using hrun
      subst h1; subst h2; subst h3
      exact ⟨rfl, hd, hprev, by simp, le_rfl⟩
    · rw [if_neg hd] at hrun
      exact absurd hrun (by simp)
  | succ fuel ih =>
    intro k w v kf wf hprev hrun
    rw [pollLoop] at hrun
    by_cases hd : pollDone (obsAt op f k) = true
    · rw [if_pos hd] at hrun
      obtain ⟨h1, h2, h3⟩ : obsAt op f k = v ∧ k = kf ∧ w = wf := by
        simpa using hrun
      subst h1; subst h2; subst h3
      exact ⟨rfl, hd, hprev, by simp, le_rfl⟩
    · rw [if_neg hd] at hrun
      have hprev' : ∀ j, j < k + 1 → pollDone (obsAt op f j) = false := by
        intro j hj
        rcases Nat.lt_succ_iff_lt_or_eq.mp hj with h | h
        · exact hprev j h
        · subst h; simpa using hd
      have hstep : pollLoop f fuel (obsAt op f (k + 1)) (k + 1) (w + POLL_SECONDS) =
          some (v, kf, wf) := hrun
      obtain ⟨h1, h2, h3, h4, h5⟩ := ih (k + 1) (w + POLL_SECONDS) v kf wf hprev' hstep
      refine ⟨h1, h2, h3, ?_, by omega⟩
      have hk : kf - k = (kf - (k + 1)) + 1 := by omega
      rw [hk, Nat.mul_add, Nat.mul_one]
      omega

theorem pollLoop_terminates (f : Nat → PyVal) (op : PyVal) :
    ∀ (m k w : Nat), pollDone (obsAt op f (k + m)) = true →
      ∃ r, pollLoop f m (obsAt op f k) k w = some r := by
  intro m
  induction m with
  | zero =>
    intro k w hd
    rw [Nat.add_zero] at hd
    rw [pollLoop]
    rw [if_pos hd]
    exact ⟨_, rfl⟩
  | succ m ih =>
    intro k w hd
    rw [pollLoop]
    by_cases hk : pollDone (obsAt op f k) = true
    · rw [if_pos hk]; exact ⟨_, rfl⟩
    · rw [if_neg hk]
      have : pollDone (obsAt op f ((k + 1) + m)) = true := by
        have : (k + 1) + m = k + (m + 1) := by omega
        rw [this]; exact hd
      exact ih (k + 1) (w + POLL_SECONDS) this

/-- A snippet longer than 500 characters is replaced by
`snippet[:497].rstrip() + "..."` (service.py line 377).  Whitespace here is
what Python `str.rstrip()` strips by default (the six ASCII whitespace
characters; other Unicode whitespace is not needed by any claim). -/
def isPySpace (c : Char) : Bool :=
  c = ' ' || c = '\t' || c = '\n' || c = '\r' || c = '\x0b' || c = '\x0c'

/-- Python `s[:n]`. -/
def pyTake (s : String) (n : Nat) : String := String.mk (s.data.take n)

/-- Python `s.rstrip()`. -/
def pyRstrip (s : String) : String := String.mk ((s.data.reverse.dropWhile isPySpace).reverse)

/-- The truncated form of an over-long snippet:
`snippet[:497].rstrip() + "..."` (service.py line 377). -/
def truncSnippet (s : String) : String := pyRstrip (pyTake s 497) ++ "..."

/-- Embedding of the truncation guard (service.py lines 376-377):
`if snippet and len(snippet) > 500: snippet = snippet[:497].rstrip() + "..."`.
`len` raises on unsized values, and slicing a sized non-string leaves a value
with no `rstrip` attribute, so those paths surface exceptions. -/
def snippetTruncStep (snippet : PyVal) : Except PyErr PyVal :=
  if truthy snippet then
    match pyLen snippet with
    | .error e => .error e
    | .ok n =>
      if 500 < n then
        match snippet with
        | .str s => .ok (.str (truncSnippet s))
        | _ => .error (.exc "AttributeError: rstrip")
      else .ok snippet
  else .ok snippet

/-- Normalization of one grounding chunk to a dict (service.py lines 337-350):
a dict chunk is used as is; anything else is reflected into a dict through
`getattr` with the listed keys. -/
def chunkToDict (chunk : PyVal) : List (String × PyVal) :=
  match chunk with
  | .dict es => es
  | _ =>
    [("chunk_reference", pyOr (pyGetattrN chunk "chunk_reference") (pyGetattrN chunk "id")),
     ("id", pyGetattrN chunk "id"),
     ("title", pyOr (pyGetattrN chunk "title") (pyGetattrN chunk "display_name")),
     ("display_name", pyGetattrN chunk "display_name"),
     ("uri", pyGetattrN chunk "uri"),
     ("snippet", pyGetattrN chunk "snippet"),
     ("segment", pyGetattrN chunk "segment"),
     ("retrieved_context", pyGetattrN chunk "retrieved_context")]

/-- Normalization of the `segment` sub-object (service.py lines 353-360):
`segment = chunk_dict.get("segment") or {}`, and a truthy non-dict segment is
reflected into a dict of its `title`/`text`/`snippet`/`uri` attributes. -/
def normSegment (v : PyVal) : List (String × PyVal) :=
  if truthy v then
    match v with
    | .dict es => es
    | _ =>
      [("title", pyGetattrN v "title"), ("text", pyGetattrN v "text"),
       ("snippet", pyGetattrN v "snippet"), ("uri", pyGetattrN v "uri")]
  else []

/-- Normalization of the `retrieved_context` sub-object (service.py lines
362-368), with keys `text`/`title`/`uri`. -/
def normRetrievedContext (v : PyVal) : List (String × PyVal) :=
  if truthy v then
    match v with
    | .dict es => es
    | _ =>
      [("text", pyGetattrN v "text"), ("title", pyGetattrN v "title"),
       ("uri", pyGetattrN v "uri")]
  else []

/-- Snippet selection before truncation (service.py lines 370-374): the
chunk-level snippet, else the segment snippet or segment text, else the
retrieved-context text. -/
def computeSnippet0 (cd segment rc : List (String × PyVal)) : PyVal :=
  let s1 := dget cd "snippet"
  let s2 := if !truthy s1 && !segment.isEmpty then pyOr (dget segment "snippet") (dget segment "text") else s1
  if !truthy s2 && !rc.isEmpty then dget rc "text" else s2

/-- Python `ref.split("#", 1)[0]`: the part of the string before the first
`#` (service.py line 389). -/
def pySplitHash (r : String) : String := String.mk (r.data.takeWhile (fun c => c != '#'))

/-- `document_path` derivation (service.py lines 387-389): when the chunk
reference is truthy, split it at the first `#`; a non-string reference makes
`split` raise.  A falsy reference leaves the path `None`. -/
def documentPathOf (chunk_ref : PyVal) : Except PyErr (Option String) :=
  if truthy chunk_ref then
    match chunk_ref with
    | .str r => .ok (some (pySplitHash r))
    | _ => .error (.exc "AttributeError: split")
  else .ok Option.none

/-- The chunk-local data computed by the loop body of `ask` before document
metadata is consulted (service.py lines 337-389). -/
structure ChunkCore where
  cd : List (String × PyVal)
  segment : List (String × PyVal)
  rc : List (String × PyVal)
  chunk_ref : PyVal
  snippet : PyVal
  title : PyVal
  uri : PyVal
  document_path : Option String
deriving DecidableEq

/-- The pure (cache-independent) part of processing one grounding chunk
(service.py lines 337-389): dict normalization, snippet selection and
truncation, title/uri selection, document-path derivation. -/
def chunkCore (chunk : PyVal) : Except PyErr ChunkCore :=
  let cd := chunkToDict chunk
  let chunk_ref := pyOr (dget cd "chunk_reference") (dget cd "id")
  let segment := normSegment (dget cd "segment")
  let rc := normRetrievedContext (dget cd "retrieved_context")
  match snippetTruncStep (computeSnippet0 cd segment rc) with
  | .error e => .error e
  | .ok snippet =>
    match documentPathOf chunk_ref with
    | .error e => .error e
    | .ok dp =>
      .ok { cd := cd, segment := segment, rc := rc, chunk_ref := chunk_ref,
            snippet := snippet,
            title := pyOr (pyOr (pyOr (dget cd "title") (dget cd "display_name"))
                (dget segment "title")) (dget rc "title"),
            uri := pyOr (pyOr (dget cd "uri") (dget segment "uri")) (dget rc "uri"),
            document_path := dp }

/-- What `ask` stores in `doc_meta_cache` for a path (service.py lines
394-398): the collaborator's result on success, and the error placeholder
`{"error": str(exc)}` when `get_document_metadata` raises. -/
def interpMeta (lookup : String → Except String PyVal) (p : String) : PyVal :=
  match lookup p with
  | .ok v => v
  | .error e => .dict [("error", .str e)]

/-- Document-field extraction from the resolved metadata (service.py lines
391-393 and 400-407): a dict metadata value supplies
`displayName`/`title`, `uri` and `error`; any other value (including `None`
when the path is falsy or absent) falls back to the retrieved-context title
and uri, with no document error. -/
def docFields (meta : PyVal) (rc : List (String × PyVal)) : PyVal × PyVal × PyVal :=
  match meta with
  | .dict md => (pyOr (dget md "displayName") (dget md "title"), dget md "uri", dget md "error")
  | _ => (dget rc "title", dget rc "uri", PyVal.none)

/-- The per-call cache/lookup step (service.py lines 394-400): when the
document path is truthy and not yet cached, invoke the collaborator once and
cache the result (or the error placeholder); then read the cached value.
Returns the updated cache, the list of collaborator invocations made by this
step, and the metadata value the chunk observes. -/
def resolveMeta (lookup : String → Except String PyVal) (cache : List (String × PyVal)) :
    Option String → List (String × PyVal) × List String × PyVal
  | Option.none => (cache, [], .none)
  | some p =>
    if p = "" then (cache, [], .none)
    else
      let step : List (String × PyVal) × List String :=
        if (dictLookup cache p).isSome then (cache, [])
        else (cache ++ [(p, interpMeta lookup p)], [p])
      (step.1, step.2, (dictLookup step.1 p).getD .none)

/-- The spec's Citation record (service.py lines 414-426). -/
structure Citation where
  id : PyVal
  title : PyVal
  uri : PyVal
  snippet : PyVal
  chunk_reference : PyVal
  document_path : Option String
  document_display_name : PyVal
  document_uri : PyVal
  document_error : PyVal
deriving DecidableEq

/-- The citation dict appended by `ask` (service.py lines 414-426). -/
def mkCitation (core : ChunkCore) (ddn duri derr : PyVal) : Citation :=
  { id := pyOr core.chunk_ref (dget core.cd "id"),
    title := core.title,
    uri := pyOr core.uri duri,
    snippet := core.snippet,
    chunk_reference := core.chunk_ref,
    document_path := core.document_path,
    document_display_name := ddn,
    document_uri := duri,
    document_error := derr }

/-- The deduplication key `(document_path, snippet, document_display_name)`
(service.py line 409). -/
def citeKey (c : Citation) : Option String × PyVal × PyVal :=
  (c.document_path, c.snippet, c.document_display_name)

/-- The loop state of `ask`'s citation assembly: the per-call document
metadata cache, the set of already-emitted deduplication keys (kept in
insertion order), the citation list, and — as instrumentation for the cache
claims — the ordered trace of `get_document_metadata` invocations. -/
structure AskState where
  doc_meta_cache : List (String × PyVal)
  seen_citations : List (Option String × PyVal × PyVal)
  citations : List Citation
  lookups : List String
deriving DecidableEq

/-- The state at entry of the loop (service.py lines 325-327). -/
def initState : AskState :=
  { doc_meta_cache := [], seen_citations := [], citations := [], lookups := [] }

/-- One iteration of the citation loop of `ask` (service.py lines 336-426):
normalize the chunk, resolve document metadata through the per-call cache,
build the deduplication key, and either skip the chunk (key already seen) or
append the citation. -/
def processChunk (lookup : String → Except String PyVal) (st : AskState) (chunk : PyVal) :
    Except PyErr AskState :=
  match chunkCore chunk with
  | .error e => .error e
  | .ok core =>
    let r := resolveMeta lookup st.doc_meta_cache core.document_path
    let f := docFields r.2.2 core.rc
    let key := (core.document_path, core.snippet, f.1)
    if key ∈ st.seen_citations then
      .ok { st with doc_meta_cache := r.1, lookups := st.lookups ++ r.2.1 }
    else
      .ok { doc_meta_cache := r.1, lookups := st.lookups ++ r.2.1,
            seen_citations := st.seen_citations ++ [key],
            citations := st.citations ++ [mkCitation core f.1 f.2.1 f.2.2] }

/-- The citation loop of `ask` over the ordered chunk sequence. -/
def processChunks (lookup : String → Except String PyVal) (st : AskState) :
    List PyVal → Except PyErr AskState
  | [] => .ok st
  | c :: cs =>
    match processChunk lookup st c with
    | .error e => .error e
    | .ok st' => processChunks lookup st' cs

/-- The metadata value a chunk with document path `dp` observes, expressed
without the cache: `None` for a falsy path, otherwise the collaborator's
(cached) result for the path. -/
def metaFor (lookup : String → Except String PyVal) : Option String → PyVal
  | Option.none => .none
  | some p => if p = "" then .none else interpMeta lookup p

/-- The citation one chunk gives rise to, before deduplication: the pure
per-chunk function the stateful loop refines (each chunk observes
`metaFor` because the cache always stores `interpMeta`). -/
def rawCitation (lookup : String → Except String PyVal) (chunk : PyVal) :
    Except PyErr Citation :=
  match chunkCore chunk with
  | .error e => .error e
  | .ok core =>
    let f := docFields (metaFor lookup core.document_path) core.rc
    .ok (mkCitation core f.1 f.2.1 f.2.2)

/-- All per-chunk citations in chunk order, without deduplication. -/
def rawCitations (lookup : String → Except String PyVal) :
    List PyVal → Except PyErr (List Citation)
  | [] => .ok []
  | c :: cs =>
    match rawCitation lookup c, rawCitations lookup cs with
    | .ok r, .ok rs => .ok (r :: rs)
    | .error e, _ => .error e
    | _, .error e => .error e

/-- Keep the first occurrence of each key, skipping any element whose key is
in `seen` or already occurred: the specification of emit-once-per-key
deduplication in first-occurrence order. -/
def keepFirstBy {α κ : Type} [DecidableEq κ] (key : α → κ) : List α → List κ → List α
  | [], _ => []
  | x :: xs, seen =>
    if key x ∈ seen then keepFirstBy key xs seen
    else x :: keepFirstBy key xs (seen ++ [key x])

/-- Cache correctness: every cached entry is exactly what `ask` stores for
that path — the collaborator's result, or the error placeholder. -/
def cacheOK (lookup : String → Except String PyVal) (cache : List (String × PyVal)) : Prop :=
  ∀ p v, (p, v) ∈ cache → v = interpMeta lookup p

theorem dictLookup_mem {es : List (String × PyVal)} {k : String} {v : PyVal}
    (h : dictLookup es k = some v) : (k, v) ∈ es := by
  unfold dictLookup at h
  cases hf : es.find? (fun e => e.1 == k) with
  | none => rw [hf] at h; simp at h
  | some e =>
    rw [hf] at h
    have hmem := List.mem_of_find?_eq_some hf
    have hk : e.1 = k := by simpa using List.find?_some hf
    have hv : e.2 = v := by simpa using h
    have he : e = (k, v) := Prod.ext hk hv
    rwa [he] at hmem

theorem resolveMeta_spec (lookup : String → Except String PyVal)
    (cache : List (String × PyVal)) (dp : Option String)
    (hc : cacheOK lookup cache) :
    cacheOK lookup (resolveMeta lookup cache dp).1 ∧
      (resolveMeta lookup cache dp).2.2 = metaFor lookup dp := by
  cases dp with
  | none => exact ⟨hc, rfl⟩
  | some p =>
    by_cases hp : p = ""
    · subst hp
      simpa [resolveMeta, metaFor] using hc
    · cases hl : dictLookup cache p with
      | some v =>
        have hvOK : v = interpMeta lookup p := hc p v (dictLookup_mem hl)
        constructor
        · have h1 : (resolveMeta lookup cache (some p)).1 = cache := by
            simp [resolveMeta, if_neg hp, hl]
          rw [h1]; exact hc
        · simp [resolveMeta, metaFor, if_neg hp, hl, hvOK]
      | none =>
        have hfind : cache.find? (fun e => e.1 == p) = Option.none := by
          unfold dictLookup at hl
          cases hf : cache.find? (fun e => e.1 == p) with
          | none => rfl
          | some e => rw [hf] at hl; simp at hl
        have hlook : dictLookup (cache ++ [(p, interpMeta lookup p)]) p
            = some (interpMeta lookup p) := by
          unfold dictLookup
          rw [List.find?_append, hfind]
          simp
        constructor
        · have h1 : (resolveMeta lookup cache (some p)).1
              = cache ++ [(p, interpMeta lookup p)] := by
            simp [resolveMeta, if_neg hp, hl]
          rw [h1]
          intro q w hqw
          rcases List.mem_append.mp hqw with h | h
          · exact hc q w h
          · simp at h; rw [h.1, h.2]
        · have h2 : (resolveMeta lookup cache (some p)).2.2
              = (dictLookup (cache ++ [(p, interpMeta lookup p)]) p).getD .none := by
            simp [resolveMeta, if_neg hp, hl]
          rw [h2, hlook]
          simp [metaFor, if_neg hp]

theorem processChunk_step (lookup : String → Except String PyVal) (st : AskState)
    (chunk : PyVal) (hc : cacheOK lookup st.doc_meta_cache) :
    (∀ e, rawCitation lookup chunk = .error e → processChunk lookup st chunk = .error e) ∧
    (∀ c, rawCitation lookup chunk = .ok c → citeKey c ∈ st.seen_citations →
      ∃ cache' calls, cacheOK lookup cache' ∧
        processChunk lookup st chunk =
          .ok { st with
                  doc_meta_cache := cache',
                  lookups := st.lookups ++ calls }) ∧
    (∀ c, rawCitation lookup chunk = .ok c → citeKey c ∉ st.seen_citations →
      ∃ cache' calls, cacheOK lookup cache' ∧
        processChunk lookup st chunk =
          .ok { doc_meta_cache := cache',
                lookups := st.lookups ++ calls,
                seen_citations := st.seen_citations ++ [citeKey c],
                citations := st.citations ++ [c] }) := by
  cases hcc : chunkCore chunk with
  | error e0 =>
    refine ⟨?_, ?_, ?_⟩
    · intro e he
      rw [rawCitation.eq_def, hcc] at he
      have : e0 = e := Except.error.inj he
      subst this
      rw [processChunk.eq_def, hcc]
    · intro c hcok
      rw [rawCitation.eq_def, hcc] at hcok
      exact absurd hcok (fun h => Except.noConfusion h)
    · intro c hcok
      rw [rawCitation.eq_def, hcc] at hcok
      exact absurd hcok (fun h => Except.noConfusion h)
  | ok core =>
    obtain ⟨hcache', hmeta⟩ := resolveMeta_spec lookup st.doc_meta_cache core.document_path hc
    refine ⟨?_, ?_, ?_⟩
    · intro e he
      rw [rawCitation.eq_def, hcc] at he
      exact absurd he (fun h => Except.noConfusion h)
    · intro c hcok hmem
      rw [rawCitation.eq_def, hcc] at hcok
      have hcv : mkCitation core (docFields (metaFor lookup core.document_path) core.rc).1
          (docFields (metaFor lookup core.document_path) core.rc).2.1
          (docFields (metaFor lookup core.document_path) core.rc).2.2 = c :=
        Except.ok.inj hcok
      refine ⟨(resolveMeta lookup st.doc_meta_cache core.document_path).1,
              (resolveMeta lookup st.doc_meta_cache core.document_path).2.1, hcache', ?_⟩
      have hmem' : (core.document_path, core.snippet,
          (docFields ((resolveMeta lookup st.doc_meta_cache core.document_path).2.2) core.rc).1)
            ∈ st.seen_citations := by
        rw [hmeta]
        rw [← hcv] at hmem
        exact hmem
      rw [processChunk.eq_def, hcc]
      simp only [if_pos hmem']
    · intro c hcok hmem
      rw [rawCitation.eq_def, hcc] at hcok
      have hcv : mkCitation core (docFields (metaFor lookup core.document_path) core.rc).1
          (docFields (metaFor lookup core.document_path) core.rc).2.1
          (docFields (metaFor lookup core.document_path) core.rc).2.2 = c :=
        Except.ok.inj hcok
      refine ⟨(resolveMeta lookup st.doc_meta_cache core.document_path).1,
              (resolveMeta lookup st.doc_meta_cache core.document_path).2.1, hcache', ?_⟩
      have hmem' : (core.document_path, core.snippet,
          (docFields ((resolveMeta lookup st.doc_meta_cache core.document_path).2.2) core.rc).1)
            ∉ st.seen_citations := by
        rw [hmeta]
        rw [← hcv] at hmem
        exact hmem
      rw [processChunk.eq_def, hcc]
      simp only [if_neg hmem']
      rw [← hcv, hmeta]
      simp only [citeKey, mkCitation]

set_option maxHeartbeats 2000000 in
theorem processChunks_spec (lookup : String → Except String PyVal) :
    ∀ (chunks : List PyVal) (st : AskState), cacheOK lookup st.doc_meta_cache →
    (∀ e, rawCitations lookup chunks = .error e → processChunks lookup st chunks = .error e) ∧
    (∀ raws, rawCitations lookup chunks = .ok raws →
      ∃ st', processChunks lookup st chunks = .ok st' ∧
        cacheOK lookup st'.doc_meta_cache ∧
        st'.citations = st.citations ++ keepFirstBy citeKey raws st.seen_citations ∧
        st'.seen_citations
          = st.seen_citations ++ (keepFirstBy citeKey raws st.seen_citations).map citeKey) := by
  intro chunks
  induction chunks with
  | nil =>
    intro st hc
    constructor
    · intro e he; exact absurd he (by simp [rawCitations])
    · intro raws hraws
      have : [] = raws := by simpa [rawCitations] using hraws
      subst this
      exact ⟨st, rfl, hc, by simp [keepFirstBy], by simp [keepFirstBy]⟩
  | cons c cs ih =>
    intro st hc
    obtain ⟨hstepErr, hstepOkMem, hstepOkNew⟩ := processChunk_step lookup st c hc
    cases h1 : rawCitation lookup c with
    | error e0 =>
      constructor
      · intro e he
        rw [rawCitations, h1] at he
        have : e0 = e := by simpa using he
        subst this
        rw [processChunks, hstepErr e0 h1]
      · intro raws hraws
        rw [rawCitations, h1] at hraws
        exact absurd hraws (by simp)
    | ok r =>
      by_cases hmem : citeKey r ∈ st.seen_citations
      · obtain ⟨cache', calls, hcache', hrun⟩ := hstepOkMem r h1 hmem
        obtain ⟨ihErr, ihOk⟩ :=
          ih { st with doc_meta_cache := cache', lookups := st.lookups ++ calls } hcache'
        constructor
        · intro e he
          rw [rawCitations, h1] at he
          cases h2 : rawCitations lookup cs with
          | error e1 =>
            rw [h2] at he
            have : e1 = e := by simpa using he
            subst this
            rw [processChunks, hrun]
            exact ihErr _ h2
          | ok rs => rw [h2] at he; exact absurd he (by simp)
        · intro raws hraws
          rw [rawCitations, h1] at hraws
          cases h2 : rawCitations lookup cs with
          | error e1 => rw [h2] at hraws; exact absurd hraws (by simp)
          | ok rs =>
            rw [h2] at hraws
            have hr : r :: rs = raws := by simpa using hraws
            subst hr
            obtain ⟨st', hrun', hcOK', hcit', hseen'⟩ := ihOk rs h2
            refine ⟨st', ?_, hcOK', ?_, ?_⟩
            · rw [processChunks, hrun]; exact hrun'
            · rw [hcit']
              simp [keepFirstBy, hmem]
            · rw [hseen']
              simp [keepFirstBy, hmem]
      · obtain ⟨cache', calls, hcache', hrun⟩ := hstepOkNew r h1 hmem
        obtain ⟨ihErr, ihOk⟩ :=
          ih { doc_meta_cache := cache', lookups := st.lookups ++ calls,
               seen_citations := st.seen_citations ++ [citeKey r],
               citations := st.citations ++ [r] } hcache'
        constructor
        · intro e he
          rw [rawCitations, h1] at he
          cases h2 : rawCitations lookup cs with
          | error e1 =>
            rw [h2] at he
            have : e1 = e := by simpa using he
            subst this
            rw [processChunks, hrun]
            exact ihErr _ h2
          | ok rs => rw [h2] at he; exact absurd he (by simp)
        · intro raws hraws
          rw [rawCitations, h1] at hraws
          cases h2 : rawCitations lookup cs with
          | error e1 => rw [h2] at hraws; exact absurd hraws (by simp)
          | ok rs =>
            rw [h2] at hraws
            have hr : r :: rs = raws := by simpa using hraws
            subst hr
            obtain ⟨st', hrun', hcOK', hcit', hseen'⟩ := ihOk rs h2
            refine ⟨st', ?_, hcOK', ?_, ?_⟩
            · rw [processChunks, hrun]; exact hrun'
            · rw [hcit']
              simp [keepFirstBy, hmem]
            · rw [hseen']
              simp [keepFirstBy, hmem]

theorem keepFirstBy_sublist {α κ : Type} [DecidableEq κ] (key : α → κ) :
    ∀ (xs : List α) (seen : List κ), (keepFirstBy key xs seen).Sublist xs
  | [], _ => by simp [keepFirstBy]
  | x :: xs, seen => by
    rw [keepFirstBy]
    by_cases h : key x ∈ seen
    · rw [if_pos h]
      exact (keepFirstBy_sublist key xs seen).cons x
    · rw [if_neg h]
      exact (keepFirstBy_sublist key xs (seen ++ [key x])).cons₂ x

theorem keepFirstBy_first {α κ : Type} [DecidableEq κ] (key : α → κ) :
    ∀ (xs : List α) (seen : List κ) (c : α), c ∈ keepFirstBy key xs seen →
      key c ∉ seen ∧ xs.find? (fun r => decide (key r = key c)) = some c
  | [], seen, c => by simp [keepFirstBy]
  | x :: xs, seen, c => by
    rw [keepFirstBy]
    by_cases h : key x ∈ seen
    · rw [if_pos h]
      intro hmem
      obtain ⟨h1, h2⟩ := keepFirstBy_first key xs seen c hmem
      have hne : ¬(key x = key c) := fun hxc => h1 (hxc ▸ h)
      refine ⟨h1, ?_⟩
      rw [List.find?_cons_of_neg _ (by simpa using hne)]
      exact h2
    · rw [if_neg h]
      intro hmem
      rcases List.mem_cons.mp hmem with hcx | hmem'
      · subst hcx
        exact ⟨h, by rw [List.find?_cons_of_pos _ (by simp)]⟩
      · obtain ⟨h1, h2⟩ := keepFirstBy_first key xs (seen ++ [key x]) c hmem'
        have h1' : key c ∉ seen := fun hs => h1 (List.mem_append.mpr (Or.inl hs))
        have hne : ¬(key x = key c) := fun hxc =>
          h1 (List.mem_append.mpr (Or.inr (by simp [hxc])))
        refine ⟨h1', ?_⟩
        rw [List.find?_cons_of_neg _ (by simpa using hne)]
        exact h2

theorem keepFirstBy_nodup_keys {α κ : Type} [DecidableEq κ] (key : α → κ) :
    ∀ (xs : List α) (seen : List κ), ((keepFirstBy key xs seen).map key).Nodup
  | [], seen => by simp [keepFirstBy]
  | x :: xs, seen => by
    rw [keepFirstBy]
    by_cases h : key x ∈ seen
    · rw [if_pos h]
      exact keepFirstBy_nodup_keys key xs seen
    · rw [if_neg h]
      rw [List.map_cons, List.nodup_cons]
      constructor
      · intro hmem
        obtain ⟨c, hc, hkc⟩ := List.mem_map.mp hmem
        have := (keepFirstBy_first key xs (seen ++ [key x]) c hc).1
        exact this (List.mem_append.mpr (Or.inr (by simp [hkc])))
      · exact keepFirstBy_nodup_keys key xs (seen ++ [key x])

theorem keepFirstBy_covers {α κ : Type} [DecidableEq κ] (key : α → κ) :
    ∀ (xs : List α) (seen : List κ) (r : α), r ∈ xs →
      key r ∈ seen ∨ ∃ c, c ∈ keepFirstBy key xs seen ∧ key c = key r
  | [], _, r => by simp
  | x :: xs, seen, r => by
    intro hr
    rw [keepFirstBy]
    rcases List.mem_cons.mp hr with hrx | hr'
    · subst hrx
      by_cases h : key r ∈ seen
      · exact Or.inl h
      · rw [if_neg h]
        exact Or.inr ⟨r, List.mem_cons_self r _, rfl⟩
    · by_cases h : key x ∈ seen
      · rw [if_pos h]
        exact keepFirstBy_covers key xs seen r hr'
      · rw [if_neg h]
        rcases keepFirstBy_covers key xs (seen ++ [key x]) r hr' with hs | ⟨c, hc, hkc⟩
        · rcases List.mem_append.mp hs with hs | hs
          · exact Or.inl hs
          · refine Or.inr ⟨x, List.mem_cons_self x _, ?_⟩
            have : key r = key x := by simpa using hs
            exact this.symm
        · exact Or.inr ⟨c, List.mem_cons_of_mem x hc, hkc⟩

/-- The cache/trace invariant maintained per call (spec section 3,
DocumentMetadataCache): the invocation trace has no duplicates, every invoked
path is cached, and every cached value is what `ask` stores for that path. -/
def invC3 (lookup : String → Except String PyVal) (st : AskState) : Prop :=
  st.lookups.Nodup ∧
    (∀ p, p ∈ st.lookups → (dictLookup st.doc_meta_cache p).isSome = true) ∧
    cacheOK lookup st.doc_meta_cache

theorem resolveMeta_calls (lookup : String → Except String PyVal)
    (cache : List (String × PyVal)) (dp : Option String) :
    ((resolveMeta lookup cache dp).2.1 = [] ∧ (resolveMeta lookup cache dp).1 = cache) ∨
    (∃ p, dp = some p ∧ p ≠ "" ∧ dictLookup cache p = Option.none ∧
      (resolveMeta lookup cache dp).2.1 = [p] ∧
      (resolveMeta lookup cache dp).1 = cache ++ [(p, interpMeta lookup p)]) := by
  cases dp with
  | none => exact Or.inl ⟨rfl, rfl⟩
  | some p =>
    by_cases hp : p = ""
    · subst hp
      exact Or.inl ⟨by simp [resolveMeta], by simp [resolveMeta]⟩
    · cases hl : dictLookup cache p with
      | some v => exact Or.inl ⟨by simp [resolveMeta, hp, hl], by simp [resolveMeta, hp, hl]⟩
      | none =>
        exact Or.inr ⟨p, rfl, hp, hl,
          by simp [resolveMeta, hp, hl], by simp [resolveMeta, hp, hl]⟩

theorem inv_core (lookup : String → Except String PyVal) (st : AskState) (dp : Option String)
    (hinv : invC3 lookup st) :
    (st.lookups ++ (resolveMeta lookup st.doc_meta_cache dp).2.1).Nodup ∧
    (∀ p, p ∈ st.lookups ++ (resolveMeta lookup st.doc_meta_cache dp).2.1 →
      (dictLookup (resolveMeta lookup st.doc_meta_cache dp).1 p).isSome = true) ∧
    cacheOK lookup (resolveMeta lookup st.doc_meta_cache dp).1 := by
  obtain ⟨hnd, hmemc, hcok⟩ := hinv
  have hcache' := (resolveMeta_spec lookup st.doc_meta_cache dp hcok).1
  rcases resolveMeta_calls lookup st.doc_meta_cache dp with ⟨hcalls, hcache⟩ |
      ⟨p, hdp, hp, hmiss, hcalls, hcache⟩
  · rw [hcalls, hcache]
    exact ⟨by simpa using hnd, by simpa using hmemc, by rwa [hcache] at hcache'⟩
  · have hfresh : p ∉ st.lookups := by
      intro hmem
      have := hmemc p hmem
      rw [hmiss] at this
      simp at this
    rw [hcalls, hcache]
    refine ⟨?_, ?_, by rwa [hcache] at hcache'⟩
    · simp [List.nodup_append, hnd, hfresh]
    · intro q hq
      rcases List.mem_append.mp hq with hq | hq
      · have := hmemc q hq
        unfold dictLookup at this ⊢
        rw [List.find?_append]
        cases hf : st.doc_meta_cache.find? (fun e => e.1 == q) with
        | none => rw [hf] at this; simp at this
        | some e => simp
      · have hqp : q = p := by simpa using hq
        subst hqp
        unfold dictLookup at hmiss ⊢
        rw [List.find?_append]
        cases hf : st.doc_meta_cache.find? (fun e => e.1 == q) with
        | none => simp
        | some e => rw [hf] at hmiss; simp at hmiss

theorem processChunk_ok_eq (lookup : String → Except String PyVal) (st : AskState)
    (chunk : PyVal) (core : ChunkCore) (hcc : chunkCore chunk = .ok core) :
    processChunk lookup st chunk =
      if (core.document_path, core.snippet,
          (docFields ((resolveMeta lookup st.doc_meta_cache core.document_path).2.2) core.rc).1)
            ∈ st.seen_citations then
        .ok { st with
                doc_meta_cache := (resolveMeta lookup st.doc_meta_cache core.document_path).1,
                lookups := st.lookups ++
                  (resolveMeta lookup st.doc_meta_cache core.document_path).2.1 }
      else
        .ok { doc_meta_cache := (resolveMeta lookup st.doc_meta_cache core.document_path).1,
              lookups := st.lookups ++
                (resolveMeta lookup st.doc_meta_cache core.document_path).2.1,
              seen_citations := st.seen_citations ++ [(core.document_path, core.snippet,
                (docFields ((resolveMeta lookup st.doc_meta_cache core.document_path).2.2)
                  core.rc).1)],
              citations := st.citations ++ [mkCitation core
                (docFields ((resolveMeta lookup st.doc_meta_cache core.document_path).2.2)
                  core.rc).1
                (docFields ((resolveMeta lookup st.doc_meta_cache core.document_path).2.2)
                  core.rc).2.1
                (docFields ((resolveMeta lookup st.doc_meta_cache core.document_path).2.2)
                  core.rc).2.2] } := by
  rw [processChunk.eq_def, hcc]

theorem processChunk_inv (lookup : String → Except String PyVal) (st : AskState)
    (chunk : PyVal) (st' : AskState) (hinv : invC3 lookup st)
    (h : processChunk lookup st chunk = .ok st') : invC3 lookup st' := by
  cases hcc : chunkCore chunk with
  | error e0 =>
    rw [processChunk.eq_def, hcc] at h
    exact absurd h (fun hh => Except.noConfusion hh)
  | ok core =>
    rw [processChunk_ok_eq lookup st chunk core hcc] at h
    obtain ⟨hnd', hmem', hcok'⟩ := inv_core lookup st core.document_path hinv
    by_cases hmem : ((core.document_path, core.snippet,
        (docFields ((resolveMeta lookup st.doc_meta_cache core.document_path).2.2) core.rc).1))
          ∈ st.seen_citations
    · rw [if_pos hmem] at h
      have hst : _ = st' := Except.ok.inj h
      rw [← hst]
      exact ⟨hnd', hmem', hcok'⟩
    · rw [if_neg hmem] at h
      have hst : _ = st' := Except.ok.inj h
      rw [← hst]
      exact ⟨hnd', hmem', hcok'⟩

theorem processChunks_inv (lookup : String → Except String PyVal) :
    ∀ (chunks : List PyVal) (st : AskState) (st' : AskState), invC3 lookup st →
      processChunks lookup st chunks = .ok st' → invC3 lookup st'
  | [], st, st', hinv, h => by
    rw [processChunks] at h
    have : st = st' := Except.ok.inj h
    rwa [← this]
  | c :: cs, st, st', hinv, h => by
    rw [processChunks] at h
    cases h1 : processChunk lookup st c with
    | error e => rw [h1] at h; exact absurd h (fun hh => Except.noConfusion hh)
    | ok st1 =>
      rw [h1] at h
      exact processChunks_inv lookup cs st1 st' (processChunk_inv lookup st c st1 hinv h1) h

/-- C1: for every raw answer, citation assembly emits exactly one Citation per
deduplication key `(document_path, snippet, document_display_name)`, at the
position of the key's first occurrence, and the returned citation sequence
preserves the original chunk order modulo the removed duplicates: the
assembled list is exactly the keep-first-by-key filtering of the per-chunk
citations — an order-preserving sublist with pairwise distinct keys that
covers every key, each kept citation being the first with its key. -/
theorem c1_dedup_first_occurrence (lookup : String → Except String PyVal)
    (chunks : List PyVal) (raws : List Citation)
    (h : rawCitations lookup chunks = .ok raws) :
    ∃ st, processChunks lookup initState chunks = .ok st ∧
      st.citations = keepFirstBy citeKey raws [] ∧
      (st.citations.map citeKey).Nodup ∧
      st.citations.Sublist raws ∧
      (∀ r, r ∈ raws → ∃ c, c ∈ st.citations ∧ citeKey c = citeKey r) ∧
      (∀ c, c ∈ st.citations →
        raws.find? (fun r => decide (citeKey r = citeKey c)) = some c) := by
  have hc0 : cacheOK lookup initState.doc_meta_cache := by
    intro p v hv; simp [initState] at hv
  obtain ⟨_, hOk⟩ := processChunks_spec lookup chunks initState hc0
  obtain ⟨st', hrun, _, hcit, _⟩ := hOk raws h
  have hc : st'.citations = keepFirstBy citeKey raws [] := by
    simpa [initState] using hcit
  refine ⟨st', hrun, hc, ?_, ?_, ?_, ?_⟩
  · rw [hc]; exact keepFirstBy_nodup_keys citeKey raws []
  · rw [hc]; exact keepFirstBy_sublist citeKey raws []
  · intro r hr
    rcases keepFirstBy_covers citeKey raws [] r hr with hmem | ⟨c, hcmem, hkey⟩
    · simp at hmem
    · exact ⟨c, by rw [hc]; exact hcmem, hkey⟩
  · intro c hcmem
    rw [hc] at hcmem
    exact (keepFirstBy_first citeKey raws [] c hcmem).2

/-- Concrete input for the C1 witness: two chunks referencing the same
document with the same snippet (the spec's Scenario D shape). -/
def w1lookup : String → Except String PyVal :=
  fun _ => .ok (.dict [("displayName", .str "Doc")])

def w1chunks : List PyVal :=
  [.dict [("chunk_reference", .str "docs/d1#0"), ("snippet", .str "abc")],
   .dict [("chunk_reference", .str "docs/d1#1"), ("snippet", .str "abc")]]

def w1raws : List Citation :=
  [{ id := .str "docs/d1#0", title := .none, uri := .none, snippet := .str "abc",
     chunk_reference := .str "docs/d1#0", document_path := some "docs/d1",
     document_display_name := .str "Doc", document_uri := .none, document_error := .none },
   { id := .str "docs/d1#1", title := .none, uri := .none, snippet := .str "abc",
     chunk_reference := .str "docs/d1#1", document_path := some "docs/d1",
     document_display_name := .str "Doc", document_uri := .none, document_error := .none }]

theorem c1_dedup_first_occurrence_witness :
    rawCitations w1lookup w1chunks = .ok w1raws ∧
    (∃ st, processChunks w1lookup initState w1chunks = .ok st ∧
      st.citations = keepFirstBy citeKey w1raws [] ∧
      (st.citations.map citeKey).Nodup ∧
      st.citations.Sublist w1raws ∧
      (∀ r, r ∈ w1raws → ∃ c, c ∈ st.citations ∧ citeKey c = citeKey r) ∧
      (∀ c, c ∈ st.citations →
        w1raws.find? (fun r => decide (citeKey r = citeKey c)) = some c)) :=
  ⟨rfl, c1_dedup_first_occurrence w1lookup w1chunks w1raws rfl⟩

/-- C3: within one answer-assembly call the external document-metadata lookup
is invoked at most once per distinct document path (the invocation trace has
no duplicates), every cached entry is exactly the collaborator's result for
its path — so all chunks referencing a path observe the same cached value —
and a failed lookup is cached as the error placeholder `{"error": msg}`, so no
re-fetch happens after a failure within the same call. -/
theorem c3_metadata_lookup_once (lookup : String → Except String PyVal)
    (chunks : List PyVal) (st : AskState)
    (h : processChunks lookup initState chunks = .ok st) :
    st.lookups.Nodup ∧
    (∀ p v, (p, v) ∈ st.doc_meta_cache → v = interpMeta lookup p) ∧
    (∀ p e, p ∈ st.lookups → lookup p = .error e →
      dictLookup st.doc_meta_cache p = some (.dict [("error", .str e)])) := by
  have hinv0 : invC3 lookup initState := by
    refine ⟨by simp [initState], ?_, ?_⟩
    · intro p hp; simp [initState] at hp
    · intro p v hv; simp [initState] at hv
  obtain ⟨hnd, hmemc, hcok⟩ := processChunks_inv lookup chunks initState st hinv0 h
  refine ⟨hnd, hcok, ?_⟩
  intro p e hp he
  have hs := hmemc p hp
  obtain ⟨v, hv⟩ := Option.isSome_iff_exists.mp hs
  have hvi := hcok p v (dictLookup_mem hv)
  rw [hv, hvi, interpMeta, he]

/-- Concrete input for the C3 witness: three chunks referencing the same
document path, with a failing metadata collaborator. -/
def w3lookup : String → Except String PyVal := fun _ => .error "boom"

def w3chunks : List PyVal :=
  [.dict [("chunk_reference", .str "docs/d1#0"), ("snippet", .str "a")],
   .dict [("chunk_reference", .str "docs/d1#1"), ("snippet", .str "b")],
   .dict [("chunk_reference", .str "docs/d1#2"), ("snippet", .str "c")]]

def w3final : AskState :=
  { doc_meta_cache := [("docs/d1", .dict [("error", .str "boom")])],
    seen_citations := [(some "docs/d1", .str "a", .none),
                       (some "docs/d1", .str "b", .none),
                       (some "docs/d1", .str "c", .none)],
    citations :=
      [{ id := .str "docs/d1#0", title := .none, uri := .none, snippet := .str "a",
         chunk_reference := .str "docs/d1#0", document_path := some "docs/d1",
         document_display_name := .none, document_uri := .none,
         document_error := .str "boom" },
       { id := .str "docs/d1#1", title := .none, uri := .none, snippet := .str "b",
         chunk_reference := .str "docs/d1#1", document_path := some "docs/d1",
         document_display_name := .none, document_uri := .none,
         document_error := .str "boom" },
       { id := .str "docs/d1#2", title := .none, uri := .none, snippet := .str "c",
         chunk_reference := .str "docs/d1#2", document_path := some "docs/d1",
         document_display_name := .none, document_uri := .none,
         document_error := .str "boom" }],
    lookups := ["docs/d1"] }

theorem c3_metadata_lookup_once_witness :
    processChunks w3lookup initState w3chunks = .ok w3final ∧
    (w3final.lookups.Nodup ∧
      (∀ p v, (p, v) ∈ w3final.doc_meta_cache → v = interpMeta w3lookup p) ∧
      (∀ p e, p ∈ w3final.lookups → w3lookup p = .error e →
        dictLookup w3final.doc_meta_cache p = some (.dict [("error", .str e)]))) :=
  ⟨rfl, c3_metadata_lookup_once w3lookup w3chunks w3final rfl⟩

theorem str_nonempty_of_long {s : String} (h : 500 < s.length) : s.isEmpty = false := by
  cases he : s.isEmpty with
  | false => rfl
  | true =>
    have : s = "" := (String.isEmpty_iff s).mp he
    subst this
    simp at h

theorem dropWhile_length_le {α : Type} (p : α → Bool) :
    ∀ l : List α, (l.dropWhile p).length ≤ l.length
  | [] => Nat.le_refl _
  | x :: xs => by
    rw [List.dropWhile_cons]
    by_cases h : p x = true
    · rw [if_pos h]
      exact Nat.le_succ_of_le (dropWhile_length_le p xs)
    · rw [if_neg h]

theorem pyRstrip_length_le (s : String) : (pyRstrip s).length ≤ s.length := by
  show ((s.data.reverse.dropWhile isPySpace).reverse).length ≤ s.data.length
  rw [List.length_reverse]
  calc (s.data.reverse.dropWhile isPySpace).length ≤ s.data.reverse.length :=
        dropWhile_length_le _ _
    _ = s.data.length := List.length_reverse _

theorem pyTake_length (s : String) (n : Nat) : (pyTake s n).length = min n s.length := by
  show (s.data.take n).length = min n s.data.length
  exact List.length_take n s.data

/-- C2 (amended): a snippet longer than 500 characters is stored as its first
497 characters with trailing whitespace stripped, followed by the ellipsis
marker; the stored length is therefore at most 500, and it is exactly the
first 497 characters plus the ellipsis — total length 500 — precisely when
the 497-character prefix carries no trailing whitespace. -/
theorem c2_truncation (s : String) (h : 500 < s.length) :
    snippetTruncStep (.str s) = .ok (.str (pyRstrip (pyTake s 497) ++ "...")) ∧
    (truncSnippet s).length ≤ 500 ∧
    (pyRstrip (pyTake s 497) = pyTake s 497 →
      truncSnippet s = pyTake s 497 ++ "..." ∧ (truncSnippet s).length = 500) := by
  have hne := str_nonempty_of_long h
  refine ⟨?_, ?_, ?_⟩
  · rw [snippetTruncStep]
    simp only [truthy, hne, Bool.not_false, if_true, pyLen]
    rw [if_pos h]
    rfl
  · rw [truncSnippet, String.length_append]
    have h1 : (pyRstrip (pyTake s 497)).length ≤ (pyTake s 497).length :=
      pyRstrip_length_le _
    have h2 : (pyTake s 497).length = 497 := by
      rw [pyTake_length]; omega
    have h3 : ("...").length = 3 := rfl
    omega
  · intro hnsp
    rw [truncSnippet, hnsp]
    refine ⟨rfl, ?_⟩
    rw [String.length_append]
    have h2 : (pyTake s 497).length = 497 := by
      rw [pyTake_length]; omega
    have h3 : ("...").length = 3 := rfl
    omega

set_option maxRecDepth 20000

/-- A 501-character whitespace-free snippet used to witness C2's amended
truncation theorem. -/
def w2snippet : String := String.mk (List.replicate 501 'a')

theorem c2_truncation_witness :
    500 < w2snippet.length ∧
    (snippetTruncStep (.str w2snippet) = .ok (.str (pyRstrip (pyTake w2snippet 497) ++ "...")) ∧
      (truncSnippet w2snippet).length ≤ 500 ∧
      (pyRstrip (pyTake w2snippet 497) = pyTake w2snippet 497 →
        truncSnippet w2snippet = pyTake w2snippet 497 ++ "..." ∧
          (truncSnippet w2snippet).length = 500)) :=
  ⟨by decide, c2_truncation w2snippet (by decide)⟩

/-- A 600-character snippet whose 497th character is a space: stores as 496
characters plus the ellipsis, total length 499, not the claimed 500. -/
def c2badSnippet : String := String.mk (List.replicate 496 'a' ++ ' ' :: List.replicate 103 'b')

/-- C2 (counterexample): for this 600-character snippet the stored value is
not the first 497 characters plus the ellipsis marker, and its total length
is 499, not 500 — `rstrip` runs between truncation and the ellipsis, so a
whitespace-ending 497-prefix yields a shorter result than the claim states. -/
theorem c2_truncation_counterexample :
    c2badSnippet.length = 600 ∧
    snippetTruncStep (.str c2badSnippet) = .ok (.str (truncSnippet c2badSnippet)) ∧
    (truncSnippet c2badSnippet).length = 499 ∧
    truncSnippet c2badSnippet ≠ pyTake c2badSnippet 497 ++ "..." := by
  refine ⟨by decide, by decide, by decide, by decide⟩

/-- C5: the field resolver returns the first present, non-null value among
the candidate keys, tried in order — checking key membership when the value
is a mapping and attribute presence otherwise — and returns None when the
value is None or no candidate key yields a non-null value; being a total
function it raises nothing for missing fields.  `resolveKeySpec` is the
spec-worded single-key probe and `List.findSome?` the first-hit search. -/
theorem c5_field_resolver (v : PyVal) (keys : List String) :
    coalesce v keys = (keys.findSome? (resolveKeySpec v)).getD PyVal.none ∧
    coalesce PyVal.none keys = PyVal.none := by
  have hcons : ∀ (w : PyVal) (k : String) (ks : List String),
      coalesce w (k :: ks) = match resolveKeySpec w k with
        | some x => x
        | Option.none => coalesce w ks := by
    intro w k ks
    cases w with
    | dict es =>
      cases hl : dictLookup es k with
      | some x =>
        show (match dictLookup es k with
            | some y => if y = PyVal.none then coalesce (.dict es) ks else y
            | Option.none => coalesce (.dict es) ks) =
          (match (match dictLookup es k with
              | some y => if y = PyVal.none then Option.none else some y
              | Option.none => Option.none) with
            | some y => y
            | Option.none => coalesce (.dict es) ks)
        rw [hl]
        by_cases hx : x = PyVal.none
        · simp [hx]
        · simp [hx]
      | none =>
        show (match dictLookup es k with
            | some y => if y = PyVal.none then coalesce (.dict es) ks else y
            | Option.none => coalesce (.dict es) ks) =
          (match (match dictLookup es k with
              | some y => if y = PyVal.none then Option.none else some y
              | Option.none => Option.none) with
            | some y => y
            | Option.none => coalesce (.dict es) ks)
        rw [hl]
    | obj attrs sf =>
      cases hl : pyAttrLookup (.obj attrs sf) k with
      | some x =>
        show (match pyAttrLookup (.obj attrs sf) k with
            | some y => if y = PyVal.none then coalesce (.obj attrs sf) ks else y
            | Option.none => coalesce (.obj attrs sf) ks) =
          (match (match pyAttrLookup (.obj attrs sf) k with
              | some y => if y = PyVal.none then Option.none else some y
              | Option.none => Option.none) with
            | some y => y
            | Option.none => coalesce (.obj attrs sf) ks)
        rw [hl]
        by_cases hx : x = PyVal.none
        · simp [hx]
        · simp [hx]
      | none =>
        show (match pyAttrLookup (.obj attrs sf) k with
            | some y => if y = PyVal.none then coalesce (.obj attrs sf) ks else y
            | Option.none => coalesce (.obj attrs sf) ks) =
          (match (match pyAttrLookup (.obj attrs sf) k with
              | some y => if y = PyVal.none then Option.none else some y
              | Option.none => Option.none) with
            | some y => y
            | Option.none => coalesce (.obj attrs sf) ks)
        rw [hl]
    | none => rfl
    | bool b => rfl
    | int n => rfl
    | str s => rfl
    | list es => rfl
  constructor
  · induction keys with
    | nil => rfl
    | cons k ks ih =>
      rw [hcons v k ks, List.findSome?_cons]
      cases hv : resolveKeySpec v k with
      | some x => simp
      | none => simpa using ih
  · induction keys with
    | nil => rfl
    | cons k ks ih =>
      rw [hcons PyVal.none k ks]
      have : resolveKeySpec PyVal.none k = Option.none := rfl
      rw [this]
      exact ih

/-- C6: while `done` is falsy the poller waits the fixed 5-unit interval and
re-fetches, issuing exactly one wait-then-fetch cycle per falsy-done
observation (the final cycle count equals the number of falsy observations
and the total time slept is 5 per cycle); on the first done-truthy
observation it stops, returns the final raw operation value when no
non-trivial error field is present (dict: non-empty `error`; object: `error`
with non-zero `code`), and surfaces the error as a fatal result when one
is. -/
theorem c6_poller_one_cycle_per_observation (f : Nat → PyVal) (op : PyVal)
    (fuel : Nat) (v : PyVal) (k w : Nat)
    (h : pollLoop f fuel op 0 0 = some (v, k, w)) :
    v = obsAt op f k ∧ pollDone v = true ∧
      (∀ j, j < k → pollDone (obsAt op f j) = false) ∧
      w = POLL_SECONDS * k ∧
      waitUntilReady f fuel op = some (finishPoll v, k, w) ∧
      (errNontrivial v = false → finishPoll v = .ok v) ∧
      (errNontrivial v = true → ∃ msg, finishPoll v = .error (.exc msg)) := by
  obtain ⟨h1, h2, h3, h4, _⟩ := pollLoop_sound f op fuel 0 0 v k w
    (fun j hj => absurd hj (Nat.not_lt_zero j)) h
  refine ⟨h1, h2, h3, by simpa using h4, ?_, ?_, ?_⟩
  · rw [waitUntilReady, h]
    rfl
  · intro he
    cases v <;> simp only [errNontrivial] at he <;> simp [finishPoll, he]
  · intro he
    cases v <;> simp only [errNontrivial] at he <;>
      exact ⟨_, by simp [finishPoll, he]; try rfl⟩

/-- Scenario B input for the C6 witness: first observation not done, first
re-fetch done with a null error. -/
def w6op : PyVal := .dict [("done", .bool false)]

def w6fetch : Nat → PyVal := fun _ => .dict [("done", .bool true)]

theorem c6_poller_one_cycle_per_observation_witness :
    pollLoop w6fetch 1 w6op 0 0 = some (.dict [("done", .bool true)], 1, 5) ∧
    ((PyVal.dict [("done", .bool true)]) = obsAt w6op w6fetch 1 ∧
      pollDone (.dict [("done", .bool true)]) = true ∧
      (∀ j, j < 1 → pollDone (obsAt w6op w6fetch j) = false) ∧
      (5 : Nat) = POLL_SECONDS * 1 ∧
      waitUntilReady w6fetch 1 w6op
        = some (finishPoll (.dict [("done", .bool true)]), 1, 5) ∧
      (errNontrivial (.dict [("done", .bool true)]) = false →
        finishPoll (.dict [("done", .bool true)]) = .ok (.dict [("done", .bool true)])) ∧
      (errNontrivial (.dict [("done", .bool true)]) = true →
        ∃ msg, finishPoll (.dict [("done", .bool true)]) = .error (.exc msg))) :=
  ⟨rfl, c6_poller_one_cycle_per_observation w6fetch w6op 1 (.dict [("done", .bool true)]) 1 5 rfl⟩

/-- C9: the polling loop is unbounded — for every stream of backend status
responses it terminates (succeeds with some finite fuel) exactly when some
observation reports `done` truthy; an operation that never reports done is
polled forever (no fuel suffices), with no timeout or retry cap anywhere in
the loop. -/
theorem c9_poll_terminates_iff_done (f : Nat → PyVal) (op : PyVal) :
    (∃ fuel r, pollLoop f fuel op 0 0 = some r) ↔
      (∃ n, pollDone (obsAt op f n) = true) := by
  constructor
  · rintro ⟨fuel, ⟨v, k, w⟩, h⟩
    obtain ⟨h1, h2, _, _, _⟩ := pollLoop_sound f op fuel 0 0 v k w
      (fun j hj => absurd hj (Nat.not_lt_zero j)) h
    exact ⟨k, by rw [← h1]; exact h2⟩
  · rintro ⟨n, hn⟩
    obtain ⟨r, hr⟩ := pollLoop_terminates f op n 0 0 (by simpa using hn)
    exact ⟨n, r, hr⟩

/-- First-candidate selection (service.py line 315): `response.candidates[0]`.
Attribute access raises when the attribute is absent; indexing raises on an
empty candidate list (only lists are modelled as indexable). -/
def getFirstCandidate (response : PyVal) : Except PyErr PyVal :=
  match pyAttrLookup response "candidates" with
  | Option.none => .error (.exc "AttributeError: candidates")
  | some (.list []) => .error (.exc "IndexError: list index out of range")
  | some (.list (c :: _)) => .ok c
  | some _ => .error (.exc "TypeError: not subscriptable")

/-- The text fallback of `ask` (service.py lines 318-320), entered when the
top-level `text` is falsy: `parts = getattr(candidate.content, "parts", [])`;
if `parts` is truthy the answer becomes `getattr(parts[0], "text", None) or
str(parts[0])`, else the falsy top-level text is kept. -/
def textFallback (response candidate : PyVal) : Except PyErr PyVal :=
  match pyAttrLookup candidate "content" with
  | Option.none => .error (.exc "AttributeError: content")
  | some content =>
    match pyGetattr content "parts" (.list []) with
    | .list [] => .ok (pyGetattrN response "text")
    | .list (p :: _) => .ok (pyOr (pyGetattrN p "text") (.str (pyStr p)))
    | parts =>
      if truthy parts then .error (.exc "TypeError: not subscriptable")
      else .ok (pyGetattrN response "text")

/-- Answer-text extraction (service.py lines 316-322): the response's `text`
attribute when truthy, else the first-part fallback; a falsy final value
raises the `NoContent` condition (`HTTPException(502, "No content in
response.")`). -/
def extractText (response candidate : PyVal) : Except PyErr PyVal :=
  match (if truthy (pyGetattrN response "text") then .ok (pyGetattrN response "text")
         else textFallback response candidate : Except PyErr PyVal) with
  | .error e => .error e
  | .ok text1 => if truthy text1 then .ok text1 else .error .noContent

/-- Grounding-metadata location on the candidate (service.py line 324). -/
def groundingOf (candidate : PyVal) : PyVal :=
  pyOr (pyGetattrN candidate "grounding_metadata") (pyGetattrN candidate "groundingMetadata")

/-- Grounding-chunk extraction (service.py lines 329-335): the first truthy of
the snake/camel attribute and dict variants, defaulting to an empty list. -/
def chunksOf (grounding : PyVal) : PyVal :=
  pyOr (pyOr (pyOr (pyOr (pyGetattrN grounding "grounding_chunks")
      (pyGetattrN grounding "groundingChunks"))
      (match grounding with | .dict es => dget es "grounding_chunks" | _ => .none))
      (match grounding with | .dict es => dget es "groundingChunks" | _ => .none))
    (.list [])

/-- The full answer-assembly call (service.py lines 315-428): candidate
selection, answer-text extraction, optional grounding, citation loop. -/
def askModel (lookup : String → Except String PyVal) (response : PyVal) :
    Except PyErr (PyVal × List Citation) :=
  match getFirstCandidate response with
  | .error e => .error e
  | .ok candidate =>
    match extractText response candidate with
    | .error e => .error e
    | .ok text =>
      let grounding := groundingOf candidate
      if truthy grounding then
        match chunksOf grounding with
        | .list cs =>
          match processChunks lookup initState cs with
          | .error e => .error e
          | .ok st => .ok (text, st.citations)
        | _ => .error (.exc "TypeError: not iterable")
      else .ok (text, [])

/-- A part carrying no text but a non-empty `str()` form, inside an otherwise
text-free response (the C4 counterexample input). -/
def c4part : PyVal := .obj [] "Part(function_call)"

def c4candidate : PyVal :=
  .obj [("content", .obj [("parts", .list [c4part])] "Content()")] "Candidate()"

def c4response : PyVal := .obj [("candidates", .list [c4candidate])] "Response()"

/-- C4 (counterexample): a raw answer whose top-level text is absent and whose
first candidate's content has no text-bearing part does NOT fail with
NoContent — the code falls back to `str(parts[0])` and answers with the
part's string form. -/
theorem c4_no_content_counterexample :
    pyAttrLookup c4response "text" = Option.none ∧
    pyAttrLookup c4part "text" = Option.none ∧
    getFirstCandidate c4response = .ok c4candidate ∧
    extractText c4response c4candidate = .ok (.str "Part(function_call)") ∧
    extractText c4response c4candidate ≠ .error .noContent ∧
    askModel (fun _ => .error "unused") c4response
      = .ok (.str "Part(function_call)", []) := by
  refine ⟨rfl, rfl, rfl, rfl, by decide, rfl⟩


theorem isEmpty_false_of_ne {s : String} (h : s ≠ "") : s.isEmpty = false := by
  cases hie : s.isEmpty with
  | false => rfl
  | true => exact absurd ((String.isEmpty_iff s).mp hie) h

theorem truthy_pyOr (a b : PyVal) : truthy (pyOr a b) = (truthy a || truthy b) := by
  rw [pyOr]
  by_cases h : truthy a = true
  · rw [if_pos h, h]; simp
  · have h' : truthy a = false := by simpa using h
    rw [if_neg h, h']; simp

/-- C4 (amended): when the top-level text is falsy and the candidate's content
carries a list of parts, the call fails with NoContent exactly when that list
is empty (keeping the falsy text) or the first part's text is falsy and its
string form empty; when the first part lacks text but has a non-empty string
form, that string form is returned as the answer instead of failing. -/
theorem c4_no_content_condition (response content : PyVal) (cs : String)
    (parts : List PyVal)
    (htext : truthy (pyGetattrN response "text") = false)
    (hparts : pyGetattr content "parts" (.list []) = .list parts) :
    (extractText response (.obj [("content", content)] cs) = .error .noContent ↔
      (parts = [] ∨ ∃ p ps, parts = p :: ps ∧ truthy (pyGetattrN p "text") = false ∧
        pyStr p = "")) ∧
    (∀ p ps, parts = p :: ps → truthy (pyGetattrN p "text") = false → pyStr p ≠ "" →
      extractText response (.obj [("content", content)] cs) = .ok (.str (pyStr p))) := by
  have hcontent : pyAttrLookup (.obj [("content", content)] cs) "content" = some content := rfl
  have hfb : textFallback response (.obj [("content", content)] cs) =
      (match pyGetattr content "parts" (.list []) with
        | .list [] => .ok (pyGetattrN response "text")
        | .list (p :: _) => .ok (pyOr (pyGetattrN p "text") (.str (pyStr p)))
        | parts =>
          if truthy parts then .error (.exc "TypeError: not subscriptable")
          else .ok (pyGetattrN response "text")) := by
    rw [textFallback, hcontent]
  rw [hparts] at hfb
  have hext : extractText response (.obj [("content", content)] cs) =
      (match (textFallback response (.obj [("content", content)] cs)) with
        | .error e => .error e
        | .ok text1 => if truthy text1 then .ok text1 else .error .noContent) := by
    rw [extractText, if_neg (by simp [htext])]
  cases parts with
  | nil =>
    rw [hfb] at hext
    have hext2 : extractText response (.obj [("content", content)] cs) =
        (if truthy (pyGetattrN response "text") = true
          then Except.ok (pyGetattrN response "text")
          else Except.error PyErr.noContent) := hext
    rw [hext2, if_neg (by simp [htext])]
    constructor
    · simp
    · intro p ps hcons
      exact absurd hcons (by simp)
  | cons p ps =>
    rw [hfb] at hext
    have hext2 : extractText response (.obj [("content", content)] cs) =
        (if truthy (pyOr (pyGetattrN p "text") (.str (pyStr p))) = true
          then Except.ok (pyOr (pyGetattrN p "text") (.str (pyStr p)))
          else Except.error PyErr.noContent) := hext
    constructor
    · rw [hext2]
      by_cases hp : truthy (pyGetattrN p "text") = true
      · rw [if_pos (by rw [truthy_pyOr]; simp [hp])]
        constructor
        · intro hc; exact absurd hc (by simp)
        · rintro (hnil | ⟨p', ps', hcons, hpt, _⟩)
          · exact absurd hnil (by simp)
          · obtain ⟨hp1, hp2⟩ : p = p' ∧ ps = ps' := by simpa using hcons
            subst hp1
            rw [hp] at hpt
            exact absurd hpt (by simp)
      · have hp' : truthy (pyGetattrN p "text") = false := by simpa using hp
        have hred : pyOr (pyGetattrN p "text") (.str (pyStr p)) = .str (pyStr p) := by
          rw [pyOr, if_neg (by simp [hp'])]
        rw [hred]
        by_cases hs : pyStr p = ""
        · rw [if_neg (by simp only [truthy, hs]; decide)]
          constructor
          · intro _
            exact Or.inr ⟨p, ps, rfl, hp', hs⟩
          · intro _; rfl
        · rw [if_pos (by simp [truthy, isEmpty_false_of_ne hs])]
          constructor
          · intro hc; exact absurd hc (by simp)
          · rintro (hnil | ⟨p', ps', hcons, hpt, hps⟩)
            · exact absurd hnil (by simp)
            · obtain ⟨hp1, _⟩ : p = p' ∧ ps = ps' := by simpa using hcons
              subst hp1
              exact absurd hps hs
    · intro p' ps' hcons hpt hps
      obtain ⟨hp1, hp2⟩ : p = p' ∧ ps = ps' := by simpa using hcons
      subst hp1
      rw [hext2]
      have hred : pyOr (pyGetattrN p "text") (.str (pyStr p)) = .str (pyStr p) := by
        rw [pyOr, if_neg (by simp [hpt])]
      rw [hred, if_pos (by simp [truthy, isEmpty_false_of_ne hps])]

theorem c4_no_content_condition_witness :
    truthy (pyGetattrN (.obj [] "Response()") "text") = false ∧
    pyGetattr (.obj [("parts", .list [])] "Content()") "parts" (.list []) = .list [] ∧
    ((extractText (.obj [] "Response()")
        (.obj [("content", .obj [("parts", .list [])] "Content()")] "Candidate()")
          = .error .noContent ↔
      (([] : List PyVal) = [] ∨ ∃ p ps, ([] : List PyVal) = p :: ps ∧
        truthy (pyGetattrN p "text") = false ∧ pyStr p = "")) ∧
    (∀ p ps, ([] : List PyVal) = p :: ps → truthy (pyGetattrN p "text") = false →
      pyStr p ≠ "" →
      extractText (.obj [] "Response()")
        (.obj [("content", .obj [("parts", .list [])] "Content()")] "Candidate()")
          = .ok (.str (pyStr p)))) :=
  ⟨rfl, rfl, c4_no_content_condition (.obj [] "Response()")
    (.obj [("parts", .list [])] "Content()") "Candidate()" [] rfl rfl⟩

/-- C8 (counterexample): the operation normalizer does raise for a malformed
input — a mapping whose resolved document name is an integer reaches
`Path(document_name)` once the display-name candidates are falsy, and `Path`
of a non-string raises `TypeError`; so "never raises, every field degrades"
does not hold for arbitrary malformed values. -/
theorem c8_never_raises_counterexample :
    docNameOf (.dict [("response", .dict [("name", .int 5)])]) = .int 5 ∧
    serializeOperation (.dict [("response", .dict [("name", .int 5)])]) PyVal.none
      = .error (.exc "TypeError: argument should be a str or os.PathLike") := by
  exact ⟨rfl, rfl⟩

/-- C8 (amended): the operation normalizer never raises provided the resolved
document name is a string or null/absent — for every such raw operation value
(mapping, attribute object, or partially populated in any way) it returns a
record, every missing field degrading to None (False for done); the single
raising path is a truthy non-string document name reached when the display
name candidates are all falsy. -/
theorem c8_never_raises (operation fallback_name : PyVal)
    (h : docNameOf operation = PyVal.none ∨ ∃ s, docNameOf operation = .str s) :
    ∃ rec, serializeOperation operation fallback_name = .ok rec := by
  simp only [serializeOperation]
  by_cases hd : truthy (pyOr (coalesce (coalesce operation ["response", "result"])
      ["display_name", "displayName"]) fallback_name) = true
  · rw [if_pos hd]
    exact ⟨_, rfl⟩
  · rw [if_neg hd]
    rcases h with h | ⟨s, h⟩
    · rw [docNameOf] at h
      rw [h]
      rw [if_neg (by simp [truthy])]
      exact ⟨_, rfl⟩
    · rw [docNameOf] at h
      rw [h]
      by_cases hs : truthy (.str s) = true
      · rw [if_pos hs]
        rw [pyPathName]
        exact ⟨_, rfl⟩
      · rw [if_neg hs]
        exact ⟨_, rfl⟩

theorem c8_never_raises_witness :
    (docNameOf (.dict [("done", .bool true)]) = PyVal.none ∨
      ∃ s, docNameOf (.dict [("done", .bool true)]) = .str s) ∧
    ∃ rec, serializeOperation (.dict [("done", .bool true)]) PyVal.none = .ok rec :=
  ⟨Or.inl rfl, c8_never_raises (.dict [("done", .bool true)]) PyVal.none (Or.inl rfl)⟩

/-- A chunk whose metadata lookup fails while its retrieved_context carries a
title and uri (the C7 counterexample input). -/
def c7chunk : PyVal :=
  .dict [("chunk_reference", .str "docs/d1#0"), ("snippet", .str "snip"),
         ("retrieved_context", .dict [("text", .str "ctext"), ("title", .str "T"),
                                      ("uri", .str "U")])]

def c7lookup : String → Except String PyVal := fun _ => .error "boom"

/-- C7 (counterexample): when the metadata lookup fails, the cached value is
the error placeholder — a mapping — so the code extracts the document display
name and uri from the placeholder, getting None for both, and does NOT fall
back to the retrieved_context title "T" and uri "U" as the claim states. -/
theorem c7_document_fields_counterexample :
    (processChunks c7lookup initState [c7chunk]).map
        (fun st => st.citations.map (fun c =>
          (c.document_display_name, c.document_uri, c.document_error)))
      = .ok [(PyVal.none, PyVal.none, .str "boom")] ∧
    (PyVal.none : PyVal) ≠ .str "T" ∧ (PyVal.none : PyVal) ≠ .str "U" := by
  refine ⟨rfl, by decide, by decide⟩

/-- The retrieved_context entries of the C7 test chunk. -/
def c7rc (rcT rcU : PyVal) : List (String × PyVal) :=
  [("text", .str "ctext"), ("title", rcT), ("uri", rcU)]

/-- The chunk used by the amended C7 theorem. -/
def c7chunkOf (rcT rcU : PyVal) : PyVal :=
  .dict [("chunk_reference", .str "docs/d1#0"), ("snippet", .str "snip"),
         ("retrieved_context", .dict (c7rc rcT rcU))]

/-- Its normalized chunk-local data. -/
def c7core (rcT rcU : PyVal) : ChunkCore :=
  { cd := [("chunk_reference", .str "docs/d1#0"), ("snippet", .str "snip"),
           ("retrieved_context", .dict (c7rc rcT rcU))],
    segment := [], rc := c7rc rcT rcU, chunk_ref := .str "docs/d1#0",
    snippet := .str "snip", title := rcT, uri := rcU, document_path := some "docs/d1" }

/-- The single citation the C7 chunk produces. -/
def c7cit (lookup : String → Except String PyVal) (rcT rcU : PyVal) : Citation :=
  mkCitation (c7core rcT rcU)
    (docFields (interpMeta lookup "docs/d1") (c7rc rcT rcU)).1
    (docFields (interpMeta lookup "docs/d1") (c7rc rcT rcU)).2.1
    (docFields (interpMeta lookup "docs/d1") (c7rc rcT rcU)).2.2

/-- The final loop state the C7 chunk produces. -/
def c7state (lookup : String → Except String PyVal) (rcT rcU : PyVal) : AskState :=
  { doc_meta_cache := [("docs/d1", interpMeta lookup "docs/d1")],
    seen_citations := [(some "docs/d1", .str "snip",
      (docFields (interpMeta lookup "docs/d1") (c7rc rcT rcU)).1)],
    citations := [c7cit lookup rcT rcU],
    lookups := ["docs/d1"] }

/-- C7 (amended): for every assembled citation, the document fields come from
the cached metadata when that value is a mapping — including the cached error
placeholder, which yields a None display name and uri while `document_error`
carries the failure message; the fallback to the retrieved_context title/uri
applies only when the metadata value is not a mapping (unavailable or an
attribute-style object), and `document_error` is then None. -/
theorem c7_document_fields (lookup : String → Except String PyVal) (rcT rcU : PyVal) :
    ∃ st c, processChunks lookup initState [c7chunkOf rcT rcU] = .ok st ∧
      st.citations = [c] ∧
      (∀ e, lookup "docs/d1" = .error e →
        c.document_display_name = PyVal.none ∧ c.document_uri = PyVal.none ∧
          c.document_error = .str e) ∧
      (∀ md, lookup "docs/d1" = .ok (.dict md) →
        c.document_display_name = pyOr (dget md "displayName") (dget md "title") ∧
          c.document_uri = dget md "uri" ∧ c.document_error = dget md "error") ∧
      (∀ attrs sf, lookup "docs/d1" = .ok (.obj attrs sf) →
        c.document_display_name = rcT ∧ c.document_uri = rcU ∧
          c.document_error = PyVal.none) := by
  refine ⟨c7state lookup rcT rcU, c7cit lookup rcT rcU, rfl, rfl, ?_, ?_, ?_⟩
  · intro e hl
    have him : interpMeta lookup "docs/d1" = .dict [("error", .str e)] := by
      rw [interpMeta, hl]
    refine ⟨?_, ?_, ?_⟩
    · show (docFields (interpMeta lookup "docs/d1") (c7rc rcT rcU)).1 = PyVal.none
      rw [him]; rfl
    · show (docFields (interpMeta lookup "docs/d1") (c7rc rcT rcU)).2.1 = PyVal.none
      rw [him]; rfl
    · show (docFields (interpMeta lookup "docs/d1") (c7rc rcT rcU)).2.2 = .str e
      rw [him]; rfl
  · intro md hl
    have him : interpMeta lookup "docs/d1" = .dict md := by
      rw [interpMeta, hl]
    refine ⟨?_, ?_, ?_⟩
    · show (docFields (interpMeta lookup "docs/d1") (c7rc rcT rcU)).1
        = pyOr (dget md "displayName") (dget md "title")
      rw [him]; rfl
    · show (docFields (interpMeta lookup "docs/d1") (c7rc rcT rcU)).2.1 = dget md "uri"
      rw [him]; rfl
    · show (docFields (interpMeta lookup "docs/d1") (c7rc rcT rcU)).2.2 = dget md "error"
      rw [him]; rfl
  · intro attrs sf hl
    have him : interpMeta lookup "docs/d1" = .obj attrs sf := by
      rw [interpMeta, hl]
    refine ⟨?_, ?_, ?_⟩
    · show (docFields (interpMeta lookup "docs/d1") (c7rc rcT rcU)).1 = rcT
      rw [him]; rfl
    · show (docFields (interpMeta lookup "docs/d1") (c7rc rcT rcU)).2.1 = rcU
      rw [him]; rfl
    · show (docFields (interpMeta lookup "docs/d1") (c7rc rcT rcU)).2.2 = PyVal.none
      rw [him]; rfl

theorem c7_document_fields_witness :
    ∃ st c, processChunks c7lookup initState [c7chunkOf (.str "T") (.str "U")] = .ok st ∧
      st.citations = [c] ∧
      (∀ e, c7lookup "docs/d1" = .error e →
        c.document_display_name = PyVal.none ∧ c.document_uri = PyVal.none ∧
          c.document_error = .str e) ∧
      (∀ md, c7lookup "docs/d1" = .ok (.dict md) →
        c.document_display_name = pyOr (dget md "displayName") (dget md "title") ∧
          c.document_uri = dget md "uri" ∧ c.document_error = dget md "error") ∧
      (∀ attrs sf, c7lookup "docs/d1" = .ok (.obj attrs sf) →
        c.document_display_name = .str "T" ∧ c.document_uri = .str "U" ∧
          c.document_error = PyVal.none) :=
  c7_document_fields c7lookup (.str "T") (.str "U")

theorem snippetTruncStep_long {s : String} (h : 500 < s.length) :
    snippetTruncStep (.str s) = .ok (.str (truncSnippet s)) := by
  rw [snippetTruncStep]
  simp only [truthy, str_nonempty_of_long h, Bool.not_false, if_true, pyLen]
  rw [if_pos h]

theorem c10_chunkCore (r s : String) (hr : truthy (.str r) = true) (hs : 500 < s.length) :
    chunkCore (.dict [("chunk_reference", .str r), ("snippet", .str s)]) =
      .ok { cd := [("chunk_reference", .str r), ("snippet", .str s)],
            segment := [], rc := [], chunk_ref := .str r,
            snippet := .str (truncSnippet s), title := PyVal.none, uri := PyVal.none,
            document_path := some (pySplitHash r) } := by
  have hdg : dget [("chunk_reference", .str r), ("snippet", .str s)] "snippet"
      = .str s := rfl
  have hsnip0 : computeSnippet0 [("chunk_reference", .str r), ("snippet", .str s)] [] []
      = .str s := by
    simp [computeSnippet0, hdg]
  have h1 : chunkToDict (.dict [("chunk_reference", .str r), ("snippet", .str s)])
      = [("chunk_reference", .str r), ("snippet", .str s)] := rfl
  have h2 : normSegment (dget [("chunk_reference", .str r), ("snippet", .str s)] "segment")
      = [] := rfl
  have h3 : normRetrievedContext
      (dget [("chunk_reference", .str r), ("snippet", .str s)] "retrieved_context")
      = [] := rfl
  have hpo : pyOr (dget [("chunk_reference", .str r), ("snippet", .str s)] "chunk_reference")
      (dget [("chunk_reference", .str r), ("snippet", .str s)] "id") = .str r := by
    show pyOr (.str r) PyVal.none = .str r
    rw [pyOr, if_pos hr]
  have hdp : documentPathOf (.str r) = .ok (some (pySplitHash r)) := by
    rw [documentPathOf, if_pos hr]
  simp only [chunkCore, h1, h2, h3, hpo, hsnip0, snippetTruncStep_long hs, hdp]
  rfl

/-- The cached metadata value both C10 chunks observe. -/
def c10meta (lookup : String → Except String PyVal) : PyVal := interpMeta lookup "docs/d1"

/-- Normalized chunk-local data of a C10 chunk. -/
def c10coreOf (r s : String) : ChunkCore :=
  { cd := [("chunk_reference", .str r), ("snippet", .str s)], segment := [], rc := [],
    chunk_ref := .str r, snippet := .str (truncSnippet s), title := PyVal.none,
    uri := PyVal.none, document_path := some "docs/d1" }

/-- The citation emitted for the first C10 chunk. -/
def c10cit (lookup : String → Except String PyVal) (r s : String) : Citation :=
  mkCitation (c10coreOf r s) (docFields (c10meta lookup) []).1
    (docFields (c10meta lookup) []).2.1 (docFields (c10meta lookup) []).2.2

/-- The loop state after the first C10 chunk (unchanged by the second). -/
def c10state (lookup : String → Except String PyVal) (s1 : String) : AskState :=
  { doc_meta_cache := [("docs/d1", c10meta lookup)],
    seen_citations := [(some "docs/d1", .str (truncSnippet s1),
      (docFields (c10meta lookup) []).1)],
    citations := [c10cit lookup "docs/d1#0" s1],
    lookups := ["docs/d1"] }

/-- C10: deduplication is computed on the post-truncation snippet — two chunks
referencing the same document whose over-long snippets differ only beyond the
truncation point (identical truncated forms) produce a single citation,
holding the truncated snippet. -/
theorem c10_dedup_on_truncated_snippet (lookup : String → Except String PyVal)
    (s1 s2 : String) (h1 : 500 < s1.length) (h2 : 500 < s2.length) (_hne : s1 ≠ s2)
    (htr : truncSnippet s1 = truncSnippet s2) :
    processChunks lookup initState
        [.dict [("chunk_reference", .str "docs/d1#0"), ("snippet", .str s1)],
         .dict [("chunk_reference", .str "docs/d1#1"), ("snippet", .str s2)]]
      = .ok (c10state lookup s1) ∧
    (c10state lookup s1).citations.length = 1 ∧
    (∀ c, c ∈ (c10state lookup s1).citations → c.snippet = .str (truncSnippet s1)) := by
  have hc1 := c10_chunkCore "docs/d1#0" s1 rfl h1
  have hc2 := c10_chunkCore "docs/d1#1" s2 rfl h2
  have hsp1 : pySplitHash "docs/d1#0" = "docs/d1" := rfl
  have hsp2 : pySplitHash "docs/d1#1" = "docs/d1" := rfl
  rw [hsp1] at hc1
  rw [hsp2] at hc2
  have hpc1 : processChunk lookup initState
      (.dict [("chunk_reference", .str "docs/d1#0"), ("snippet", .str s1)])
      = .ok (c10state lookup s1) := by
    rw [processChunk_ok_eq lookup initState _ _ hc1, if_neg (by simp [initState])]
    rfl
  have hmem2 : ((some "docs/d1", PyVal.str (truncSnippet s2),
      (docFields ((resolveMeta lookup (c10state lookup s1).doc_meta_cache
        (some "docs/d1")).2.2) []).1) : Option String × PyVal × PyVal)
      ∈ (c10state lookup s1).seen_citations := by
    show ((some "docs/d1", PyVal.str (truncSnippet s2), (docFields (c10meta lookup) []).1) :
        Option String × PyVal × PyVal)
      ∈ [(some "docs/d1", PyVal.str (truncSnippet s1), (docFields (c10meta lookup) []).1)]
    rw [← htr]
    exact List.mem_singleton_self _
  have hpc2 : processChunk lookup (c10state lookup s1)
      (.dict [("chunk_reference", .str "docs/d1#1"), ("snippet", .str s2)])
      = .ok (c10state lookup s1) := by
    rw [processChunk_ok_eq lookup _ _ _ hc2, if_pos hmem2]
    rfl
  refine ⟨?_, rfl, ?_⟩
  · rw [processChunks, hpc1]
    show processChunks lookup (c10state lookup s1)
        [.dict [("chunk_reference", .str "docs/d1#1"), ("snippet", .str s2)]]
      = .ok (c10state lookup s1)
    rw [processChunks, hpc2]
    rfl
  · intro c hc
    have hcc : c = c10cit lookup "docs/d1#0" s1 := by
      simpa [c10state] using hc
    rw [hcc]
    rfl

/-- Concrete C10 witness inputs: two 501-character snippets that differ only
in their last character, hence share their truncated form. -/
def w10s1 : String := String.mk (List.replicate 501 'a')

def w10s2 : String := String.mk (List.replicate 500 'a' ++ ['b'])

def w10lookup : String → Except String PyVal := fun _ => .ok PyVal.none

theorem c10_dedup_on_truncated_snippet_witness :
    (500 < w10s1.length ∧ 500 < w10s2.length ∧ w10s1 ≠ w10s2 ∧
      truncSnippet w10s1 = truncSnippet w10s2) ∧
    (processChunks w10lookup initState
        [.dict [("chunk_reference", .str "docs/d1#0"), ("snippet", .str w10s1)],
         .dict [("chunk_reference", .str "docs/d1#1"), ("snippet", .str w10s2)]]
      = .ok (c10state w10lookup w10s1) ∧
    (c10state w10lookup w10s1).citations.length = 1 ∧
    (∀ c, c ∈ (c10state w10lookup w10s1).citations →
      c.snippet = .str (truncSnippet w10s1))) :=
  ⟨⟨by decide, by decide, by decide, rfl⟩,
    c10_dedup_on_truncated_snippet w10lookup w10s1 w10s2 (by decide) (by decide)
      (by decide) rfl⟩

end RagBot
